import Mathlib

/-!
Verification of the ZoneValidator fabric-validation core
(`src/utils/FabricValidator.ts`, class `FabricValidator`) against its
natural-language specification.

JavaScript strings are modelled as lists of characters (`JStr`).  The typed
model below follows the TypeScript interfaces in `src/types/index.ts`
(`FabricData`, `WWNInfo`, `HostData`, `ValidationResult`): every declared
field is a string that is present.  A second, dynamic model (`RawEntry`,
further down) captures the JavaScript runtime behaviour for rows that
violate the declared interface by lacking a field, which is needed for the
claim about malformed inputs.

The `number` arithmetic in `getSummary` (`Math.round((good / total) * 100)`)
is IEEE-754 binary64; division and multiplication are correctly rounded
(round to nearest, ties to even).  `fl53` below implements that rounding
exactly on rationals (the exponent range of binary64 is never exercised by
the magnitudes involved, so no overflow/underflow handling is needed).
-/

/-- JavaScript string, modelled as its sequence of characters. -/
abbrev JStr := List Char

/-- One raw spreadsheet row, following the required fields of interface
`FabricData` (src/types/index.ts).  `memberWWN` stands for the source key
`Member WWN / D,P`, `loggedInText` for the source key `Logged In`;
`Vendor` represents the descriptive pass-through columns. -/
structure FabricData where
  Fabric : JStr
  Alias : JStr
  memberWWN : JStr
  loggedInText : JStr
  Vendor : JStr
deriving DecidableEq, Repr

/-- Interface `WWNInfo` (src/types/index.ts). -/
structure WWNInfo where
  wwn : JStr
  isLoggedIn : Bool
  fabric : JStr
deriving DecidableEq, Repr

/-- A `loggedIn` / `notLoggedIn` counter pair, as in interface `HostData`. -/
structure FabCounts where
  loggedIn : Nat
  notLoggedIn : Nat
deriving DecidableEq, Repr

/-- Interface `HostData` extended with the `wwns` list, exactly the value
type of the `hostMap` built by `FabricValidator.groupByHost`. -/
structure HostData where
  hostName : JStr
  fabA : FabCounts
  fabB : FabCounts
  wwns : List WWNInfo
deriving DecidableEq, Repr

/-- The `'OK' | 'Error'` union used for per-fabric verdicts. -/
inductive Verdict where
  | OK
  | Error
deriving DecidableEq, Repr

/-- The `finalValidation` union
`'Good' | 'FAB-A Is BAD' | 'FAB-B Is BAD' | 'Both FABs Are BAD'`. -/
inductive FinalValidation where
  | good
  | fabABad
  | fabBBad
  | bothBad
deriving DecidableEq, Repr

/-- Interface `ValidationResult` (src/types/index.ts). -/
structure ValidationResult where
  host : JStr
  wwns : List WWNInfo
  fabA_LoggedInYes : Nat
  fabA_LoggedInNo : Nat
  validationA : Verdict
  fabB_LoggedInYes : Nat
  fabB_LoggedInNo : Nat
  validationB : Verdict
  finalValidation : FinalValidation
deriving DecidableEq, Repr

/-- The string constant `'FAB-A'`. -/
def fabAStr : JStr := "FAB-A".toList

/-- The string constant `'FAB-B'`. -/
def fabBStr : JStr := "FAB-B".toList

/-- The dedup key of `removeDuplicates`:
the template literal `` `${entry.Fabric}|${entry.Alias}|${entry['Member WWN / D,P']}` ``. -/
def dedupKey (e : FabricData) : JStr :=
  e.Fabric ++ '|' :: e.Alias ++ '|' :: e.memberWWN

/-- The loop of `removeDuplicates`: walk the rows, keeping a row when its
key is not in the `seen` set and adding the key to `seen`.  The JavaScript
`Set<string>` is modelled by a list of keys used only through membership. -/
def removeDupAux (seen : List JStr) : List FabricData → List FabricData
  | [] => []
  | e :: rest =>
      if dedupKey e ∈ seen then removeDupAux seen rest
      else e :: removeDupAux (dedupKey e :: seen) rest

/-- Method `FabricValidator.removeDuplicates`. -/
def removeDuplicates (data : List FabricData) : List FabricData :=
  removeDupAux [] data

/-- The state a `FabricValidator` holds after its constructor ran. -/
structure FabricValidator where
  data : List FabricData
  originalDataCount : Nat
  duplicatesRemoved : Nat
deriving Repr

/-- The `FabricValidator` constructor: deduplicate on construction and
record the original and removed counts. -/
def FabricValidator.make (input : List FabricData) : FabricValidator :=
  { data := removeDuplicates input
    originalDataCount := input.length
    duplicatesRemoved := input.length - (removeDuplicates input).length }

/-- Method `FabricValidator.extractHostName`:
`alias.replace(/_[^_]*$/, '')`.  The regex matches the last underscore
together with everything after it (`[^_]*` cannot cross an underscore and
`$` anchors the match at the end), so the replacement removes that segment;
with no underscore present there is no match and the alias is returned
unchanged. -/
def extractHostName (a : JStr) : JStr :=
  match a.reverse.dropWhile (fun c => c ≠ '_') with
  | [] => a
  | _ :: rest => rest.reverse

/-- The login flag: `entry['Logged In'].toLowerCase() === 'yes'`. -/
def isYes (s : JStr) : Bool :=
  decide (s.map Char.toLower = "yes".toList)

/-- Association-list lookup, modelling `Map.get` / `Map.has`. -/
def lookupA {α : Type} : List (JStr × α) → JStr → Option α
  | [], _ => none
  | (k, v) :: rest, h => if k = h then some v else lookupA rest h

/-- Association-list update, modelling `Map.set`: replace the value in
place when the key is present, append a new entry otherwise (JavaScript
`Map` preserves insertion order and keeps the position of updated keys). -/
def setA {α : Type} : List (JStr × α) → JStr → α → List (JStr × α)
  | [], h, v => [(h, v)]
  | (k, w) :: rest, h, v =>
      if k = h then (h, v) :: rest else (k, w) :: setA rest h v

/-- The fresh aggregate `groupByHost` inserts on first sight of a host. -/
def emptyAgg (h : JStr) : HostData :=
  { hostName := h, fabA := ⟨0, 0⟩, fabB := ⟨0, 0⟩, wwns := [] }

/-- The WWN step of `groupByHost`: push `{wwn, isLoggedIn, fabric}` unless
an entry with the same `wwn` and `fabric` is already present
(`hostData.wwns.find(w => w.wwn === wwn && w.fabric === fabric)`). -/
def addWWN (agg : HostData) (e : FabricData) : HostData :=
  if ∃ w ∈ agg.wwns, w.wwn = e.memberWWN ∧ w.fabric = e.Fabric then agg
  else { agg with
         wwns := agg.wwns ++ [⟨e.memberWWN, isYes e.loggedInText, e.Fabric⟩] }

/-- The counter step of `groupByHost`: bump the matching counter when the
fabric is `'FAB-A'` or `'FAB-B'`, leave everything alone otherwise. -/
def bumpCounters (agg : HostData) (e : FabricData) : HostData :=
  if e.Fabric = fabAStr then
    (if isYes e.loggedInText then
      { agg with fabA := ⟨agg.fabA.loggedIn + 1, agg.fabA.notLoggedIn⟩ }
    else
      { agg with fabA := ⟨agg.fabA.loggedIn, agg.fabA.notLoggedIn + 1⟩ })
  else if e.Fabric = fabBStr then
    (if isYes e.loggedInText then
      { agg with fabB := ⟨agg.fabB.loggedIn + 1, agg.fabB.notLoggedIn⟩ }
    else
      { agg with fabB := ⟨agg.fabB.loggedIn, agg.fabB.notLoggedIn + 1⟩ })
  else agg

/-- One iteration of the `this.data.forEach` loop of `groupByHost`. -/
def stepHost (m : List (JStr × HostData)) (e : FabricData) :
    List (JStr × HostData) :=
  let h := extractHostName e.Alias
  let cur := (lookupA m h).getD (emptyAgg h)
  setA m h (bumpCounters (addWWN cur e) e)

/-- Method `FabricValidator.groupByHost`. -/
def groupByHost (data : List FabricData) : List (JStr × HostData) :=
  data.foldl stepHost []

/-- Method `FabricValidator.validateFabric` (the spec's `ruleCheck`). -/
def validateFabric (loggedIn notLoggedIn : Nat) : Verdict :=
  if (loggedIn = 2 ∧ notLoggedIn = 2) ∨ (loggedIn = 1 ∧ notLoggedIn = 0) then
    Verdict.OK
  else
    Verdict.Error

/-- Method `FabricValidator.getFinalValidation`. -/
def getFinalValidation (validationA validationB : Verdict) : FinalValidation :=
  if validationA = Verdict.OK ∧ validationB = Verdict.OK then
    FinalValidation.good
  else if validationA = Verdict.Error ∧ validationB = Verdict.Error then
    FinalValidation.bothBad
  else if validationA = Verdict.Error then
    FinalValidation.fabABad
  else
    FinalValidation.fabBBad

/-- The result record `validate` pushes for one `hostMap` entry. -/
def mkResult (kv : JStr × HostData) : ValidationResult :=
  let vA := validateFabric kv.2.fabA.loggedIn kv.2.fabA.notLoggedIn
  let vB := validateFabric kv.2.fabB.loggedIn kv.2.fabB.notLoggedIn
  { host := kv.1
    wwns := kv.2.wwns
    fabA_LoggedInYes := kv.2.fabA.loggedIn
    fabA_LoggedInNo := kv.2.fabA.notLoggedIn
    validationA := vA
    fabB_LoggedInYes := kv.2.fabB.loggedIn
    fabB_LoggedInNo := kv.2.fabB.notLoggedIn
    validationB := vB
    finalValidation := getFinalValidation vA vB }

/-- The unsorted result list of `validate` (`hostMap.forEach` runs in
insertion order). -/
def resultsOf (v : FabricValidator) : List ValidationResult :=
  (groupByHost v.data).map mkResult

/-- Method `FabricValidator.validate`.  The final
`results.sort((a, b) => a.host.localeCompare(b.host))` sorts with
`String.prototype.localeCompare`, whose ordering ECMAScript leaves
implementation- and locale-defined; the model therefore takes the
comparison `le` as a parameter. -/
def validateWith (le : JStr → JStr → Bool) (v : FabricValidator) :
    List ValidationResult :=
  (resultsOf v).mergeSort (fun a b => le a.host b.host)

/-- Bounded-fuel binary logarithm, `⌊log2 n⌋` for `n ≥ 1`. -/
def log2fuel : Nat → Nat → Nat
  | 0, _ => 0
  | f + 1, n => if 2 ≤ n then log2fuel f (n / 2) + 1 else 0

/-- Floor of the binary logarithm of a natural number. -/
def natLog2 (n : Nat) : Nat := log2fuel n n

/-- For `x > 0`, the binary64 exponent: the unique `e` with
`2 ^ e ≤ x < 2 ^ (e + 1)`. -/
def floorLog2Q (x : ℚ) : ℤ :=
  let e0 : ℤ := (natLog2 x.num.natAbs : ℤ) - (natLog2 x.den : ℤ)
  if (2 : ℚ) ^ e0 ≤ x then e0 else e0 - 1

/-- Round a nonnegative rational to the nearest integer, ties to even. -/
def roundHalfEven (m : ℚ) : ℤ :=
  if m - ⌊m⌋ < 1 / 2 then ⌊m⌋
  else if 1 / 2 < m - ⌊m⌋ then ⌊m⌋ + 1
  else if ⌊m⌋ % 2 = 0 then ⌊m⌋ else ⌊m⌋ + 1

/-- Exact binary64 rounding (round to nearest, ties to even, 53-bit
significand, exponent range unbounded): the value a JavaScript `number`
operation producing the exact rational `q` actually returns. -/
def fl53 (q : ℚ) : ℚ :=
  if q = 0 then 0
  else
    let x := |q|
    let e := floorLog2Q x
    let m := roundHalfEven (x * (2 : ℚ) ^ ((52 : ℤ) - e))
    (if 0 < q then 1 else -1) * (m : ℚ) * (2 : ℚ) ^ (e - 52)

/-- ECMAScript `Math.round`: nearest integer, ties toward `+∞`. -/
def jsMathRound (x : ℚ) : ℤ := ⌊x + 1 / 2⌋

/-- The record `getSummary` returns. -/
structure Summary where
  total : Nat
  good : Nat
  fabABad : Nat
  fabBBad : Nat
  bothBad : Nat
  percentageGood : ℤ
  originalEntries : Nat
  duplicatesRemoved : Nat
  uniqueEntries : Nat
deriving DecidableEq, Repr

/-- Method `FabricValidator.getSummary`.  `percentageGood` is
`Math.round((good / total) * 100)`: the division and the multiplication
are binary64 operations, modelled by `fl53` applied to the exact rational
result of each step. -/
def getSummary (v : FabricValidator) (results : List ValidationResult) :
    Summary :=
  let total := results.length
  let good :=
    (results.filter (fun r => decide (r.finalValidation = FinalValidation.good))).length
  let fabABad :=
    (results.filter (fun r => decide (r.finalValidation = FinalValidation.fabABad))).length
  let fabBBad :=
    (results.filter (fun r => decide (r.finalValidation = FinalValidation.fabBBad))).length
  let bothBad :=
    (results.filter (fun r => decide (r.finalValidation = FinalValidation.bothBad))).length
  { total := total
    good := good
    fabABad := fabABad
    fabBBad := fabBBad
    bothBad := bothBad
    percentageGood :=
      if 0 < total then
        jsMathRound (fl53 (fl53 ((good : ℚ) / (total : ℚ)) * 100))
      else 0
    originalEntries := v.originalDataCount
    duplicatesRemoved := v.duplicatesRemoved
    uniqueEntries := v.data.length }

/-!
Dynamic model.  TypeScript types are erased at runtime, so a row object
produced by untyped ingestion can lack any of the declared fields; the
missing field then reads as `undefined`.  `RawEntry` models such a row
(`none` = field absent), and the `dyn` functions below re-run the same
source code under JavaScript semantics for `undefined`:

* a template literal renders `undefined` as the string `"undefined"`
  (`jsField`);
* `entry.Alias.replace(...)` and `entry['Logged In'].toLowerCase()` throw
  a `TypeError` when the field is `undefined`, modelled by `Except`;
* `===` comparisons treat `undefined` as a value distinct from every
  string, modelled by equality on `Option JStr`.
-/

/-- A raw row as JavaScript sees it: each declared field may be absent. -/
structure RawEntry where
  Fabric : Option JStr
  Alias : Option JStr
  memberWWN : Option JStr
  loggedInText : Option JStr
deriving DecidableEq, Repr

/-- String interpolation of a possibly-absent field:
`` `${undefined}` `` is the string `"undefined"`. -/
def jsField (o : Option JStr) : JStr := o.getD ("undefined".toList)

/-- The dedup key template literal evaluated on a dynamic row. -/
def dynKey (e : RawEntry) : JStr :=
  jsField e.Fabric ++ '|' :: jsField e.Alias ++ '|' :: jsField e.memberWWN

/-- The `removeDuplicates` loop on dynamic rows; template literals never
throw, so this stays total. -/
def dynRemoveDupAux (seen : List JStr) : List RawEntry → List RawEntry
  | [] => []
  | e :: rest =>
      if dynKey e ∈ seen then dynRemoveDupAux seen rest
      else e :: dynRemoveDupAux (dynKey e :: seen) rest

/-- `removeDuplicates` on dynamic rows (the constructor's dedup step). -/
def dynRemoveDuplicates (data : List RawEntry) : List RawEntry :=
  dynRemoveDupAux [] data

/-- A `wwns` entry of the dynamic model: `wwn` and `fabric` are stored as
whatever values the row held, possibly `undefined`. -/
structure DynWWNInfo where
  wwn : Option JStr
  isLoggedIn : Bool
  fabric : Option JStr
deriving DecidableEq, Repr

/-- The `hostMap` value of the dynamic model. -/
structure DynHostData where
  hostName : JStr
  fabA : FabCounts
  fabB : FabCounts
  wwns : List DynWWNInfo
deriving DecidableEq, Repr

/-- One `groupByHost` loop iteration on a dynamic row.  Reading
`entry.Alias.replace(...)` or `entry['Logged In'].toLowerCase()` on an
absent field throws, which aborts `validate()`; every other access
tolerates `undefined`. -/
def dynStepHost (m : List (JStr × DynHostData)) (e : RawEntry) :
    Except Unit (List (JStr × DynHostData)) :=
  match e.Alias, e.loggedInText with
  | some a, some li =>
      let h := extractHostName a
      let isL := isYes li
      let cur := (lookupA m h).getD ⟨h, ⟨0, 0⟩, ⟨0, 0⟩, []⟩
      let cur :=
        if ∃ w ∈ cur.wwns, w.wwn = e.memberWWN ∧ w.fabric = e.Fabric then cur
        else { cur with wwns := cur.wwns ++ [⟨e.memberWWN, isL, e.Fabric⟩] }
      let cur :=
        if e.Fabric = some fabAStr then
          (if isL then { cur with fabA := ⟨cur.fabA.loggedIn + 1, cur.fabA.notLoggedIn⟩ }
           else { cur with fabA := ⟨cur.fabA.loggedIn, cur.fabA.notLoggedIn + 1⟩ })
        else if e.Fabric = some fabBStr then
          (if isL then { cur with fabB := ⟨cur.fabB.loggedIn + 1, cur.fabB.notLoggedIn⟩ }
           else { cur with fabB := ⟨cur.fabB.loggedIn, cur.fabB.notLoggedIn + 1⟩ })
        else cur
      Except.ok (setA m h cur)
  | _, _ => Except.error ()

/-- `groupByHost` on dynamic rows: the loop aborts at the first row whose
`Alias` or `Logged In` field is absent. -/
def dynGroupByHost (data : List RawEntry) :
    Except Unit (List (JStr × DynHostData)) :=
  data.foldlM dynStepHost []

/-- A validation result of the dynamic model. -/
structure DynValidationResult where
  host : JStr
  wwns : List DynWWNInfo
  fabA_LoggedInYes : Nat
  fabA_LoggedInNo : Nat
  validationA : Verdict
  fabB_LoggedInYes : Nat
  fabB_LoggedInNo : Nat
  validationB : Verdict
  finalValidation : FinalValidation
deriving DecidableEq, Repr

/-- The result record built from one dynamic `hostMap` entry. -/
def dynMkResult (kv : JStr × DynHostData) : DynValidationResult :=
  let vA := validateFabric kv.2.fabA.loggedIn kv.2.fabA.notLoggedIn
  let vB := validateFabric kv.2.fabB.loggedIn kv.2.fabB.notLoggedIn
  { host := kv.1
    wwns := kv.2.wwns
    fabA_LoggedInYes := kv.2.fabA.loggedIn
    fabA_LoggedInNo := kv.2.fabA.notLoggedIn
    validationA := vA
    fabB_LoggedInYes := kv.2.fabB.loggedIn
    fabB_LoggedInNo := kv.2.fabB.notLoggedIn
    validationB := vB
    finalValidation := getFinalValidation vA vB }

/-- `validate()` run on a validator constructed from dynamic rows:
construction (dedup) is total, then grouping may throw; everything after
grouping is total.  Sorting is dropped here since it permutes the list
and cannot throw, and only success or failure is at issue. -/
def dynValidate (rows : List RawEntry) : Except Unit (List DynValidationResult) :=
  (dynGroupByHost (dynRemoveDuplicates rows)).map (fun m => m.map dynMkResult)

/-!
Reference functions.  These restate, straight from the specification's
wording, what the loops above are supposed to compute; the theorems below
compare them with the translated source functions.
-/

/-- Host identity of a row: `extractHostName(entry.Alias)`. -/
def hostOf (e : FabricData) : JStr := extractHostName e.Alias

/-- Number of rows of `data` carrying fabric `fab`, deriving host `host`,
and whose Logged In text case-insensitively equals `yes` iff `logged`. -/
def cntFab (data : List FabricData) (fab host : JStr) (logged : Bool) : Nat :=
  (data.filter fun e =>
    decide (e.Fabric = fab ∧ hostOf e = host ∧ isYes e.loggedInText = logged)).length

/-- First-occurrence deduplication as the specification words it: keep a
row, drop every later row with an equal key. -/
def keepFirsts : List FabricData → List FabricData
  | [] => []
  | e :: rest =>
      e :: keepFirsts (rest.filter fun x => decide (dedupKey x ≠ dedupKey e))
termination_by l => l.length
decreasing_by
  exact Nat.lt_succ_of_le (List.length_filter_le _ _)

/-- C1: for all non-negative integers `l` and `n`, `ruleCheck(l, n)`
(source: `validateFabric`) returns OK iff `(l, n)` is `(2, 2)` or
`(1, 0)`, and returns Error for every other pair, `(0, 0)` included. -/
theorem claim_C1_ruleCheck (l n : Nat) :
    (validateFabric l n = Verdict.OK ↔ (l = 2 ∧ n = 2) ∨ (l = 1 ∧ n = 0)) ∧
    (validateFabric l n = Verdict.Error ↔ ¬((l = 2 ∧ n = 2) ∨ (l = 1 ∧ n = 0))) := by
  unfold validateFabric
  by_cases h : (l = 2 ∧ n = 2) ∨ (l = 1 ∧ n = 0) <;> simp [h]

/-- C4: `getFinalValidation` is a total function of the two verdicts:
Good when both are OK, Both-Bad (`'Both FABs Are BAD'`) when both are
Error, FabA-Bad (`'FAB-A Is BAD'`) exactly when only `validationA` is
Error, FabB-Bad (`'FAB-B Is BAD'`) exactly when only `validationB` is
Error; being a function into a four-element type, it produces exactly one
of the four outcomes for every pair. -/
theorem claim_C4_finalValidation (a b : Verdict) :
    (getFinalValidation a b = FinalValidation.good ↔
      a = Verdict.OK ∧ b = Verdict.OK) ∧
    (getFinalValidation a b = FinalValidation.bothBad ↔
      a = Verdict.Error ∧ b = Verdict.Error) ∧
    (getFinalValidation a b = FinalValidation.fabABad ↔
      a = Verdict.Error ∧ b = Verdict.OK) ∧
    (getFinalValidation a b = FinalValidation.fabBBad ↔
      a = Verdict.OK ∧ b = Verdict.Error) := by
  cases a <;> cases b <;> decide

/-- Walking over characters that are not underscores, `dropWhile` stops
exactly at the first underscore. -/
theorem dropWhile_until_underscore :
    ∀ s : JStr, '_' ∉ s →
      ∀ t : JStr, (s ++ '_' :: t).dropWhile (fun c => c ≠ '_') = '_' :: t := by
  intro s hs t
  induction s with
  | nil => simp [List.dropWhile]
  | cons c s ih =>
      have hc : c ≠ '_' := fun h => hs (h ▸ List.mem_cons_self c s)
      have hs' : '_' ∉ s := fun h => hs (List.mem_cons_of_mem c h)
      simpa [List.dropWhile, hc] using ih hs'

/-- With no underscore present, `dropWhile` consumes the whole string. -/
theorem dropWhile_no_underscore (s : JStr) (hs : '_' ∉ s) :
    s.dropWhile (fun c => c ≠ '_') = [] := by
  induction s with
  | nil => rfl
  | cons c s ih =>
      have hc : c ≠ '_' := fun h => hs (h ▸ List.mem_cons_self c s)
      have hs' : '_' ∉ s := fun h => hs (List.mem_cons_of_mem c h)
      simpa [List.dropWhile, hc] using ih hs'

/-- C5: host identity is a pure function of the alias string alone
(`extractHostName` takes no other input): an alias of the shape
`pre ++ '_' :: suf` with no underscore in `suf` — that is, any alias whose
last underscore is followed by `suf` — maps to `pre`, and an alias with no
underscore at all maps to itself. -/
theorem claim_C5_extractHostName :
    (∀ a : JStr, '_' ∉ a → extractHostName a = a) ∧
    (∀ pre suf : JStr, '_' ∉ suf →
      extractHostName (pre ++ '_' :: suf) = pre) := by
  constructor
  · intro a ha
    have h : a.reverse.dropWhile (fun c => c ≠ '_') = [] :=
      dropWhile_no_underscore _ (by simpa using ha)
    unfold extractHostName
    rw [h]
  · intro pre suf hsuf
    have h : (pre ++ '_' :: suf).reverse.dropWhile (fun c => c ≠ '_') =
        '_' :: pre.reverse := by
      have : (pre ++ '_' :: suf).reverse = suf.reverse ++ '_' :: pre.reverse := by
        simp
      rw [this]
      exact dropWhile_until_underscore _ (by simpa using hsuf) _
    unfold extractHostName
    rw [h]
    simp

/-- Closed instance of C5 at the alias `MN01_1-1-A_FE_FC01_PG01` (the
example from the source comment) and at an underscore-free alias. -/
theorem claim_C5_witness :
    extractHostName ("nounders".toList) = "nounders".toList ∧
    extractHostName (("MN01_1-1-A_FE_FC01".toList) ++ '_' :: ("PG01".toList)) =
      "MN01_1-1-A_FE_FC01".toList :=
  ⟨claim_C5_extractHostName.1 _ (by decide),
   claim_C5_extractHostName.2 _ _ (by decide)⟩

/-- The dedup loop output is a sublist of its input: rows are only ever
skipped, never reordered or changed. -/
theorem removeDupAux_sublist :
    ∀ (l : List FabricData) (seen : List JStr),
      List.Sublist (removeDupAux seen l) l := by
  intro l
  induction l with
  | nil => intro seen; simp [removeDupAux]
  | cons e rest ih =>
      intro seen
      by_cases h : dedupKey e ∈ seen
      · simp only [removeDupAux, if_pos h]
        exact (ih seen).trans (List.sublist_cons_self e rest)
      · simp only [removeDupAux, if_neg h]
        exact (ih (dedupKey e :: seen)).cons₂ e

/-- Rows surviving the dedup loop have keys outside `seen`, and their keys
are pairwise distinct. -/
theorem removeDupAux_keys :
    ∀ (l : List FabricData) (seen : List JStr),
      (∀ e ∈ removeDupAux seen l, dedupKey e ∉ seen) ∧
      ((removeDupAux seen l).map dedupKey).Nodup := by
  intro l
  induction l with
  | nil => intro seen; simp [removeDupAux]
  | cons e rest ih =>
      intro seen
      by_cases h : dedupKey e ∈ seen
      · simpa only [removeDupAux, if_pos h] using ih seen
      · simp only [removeDupAux, if_neg h]
        obtain ⟨ih1, ih2⟩ := ih (dedupKey e :: seen)
        refine ⟨?_, ?_⟩
        · intro x hx
          rcases List.mem_cons.1 hx with rfl | hx
          · exact h
          · exact fun hmem => ih1 x hx (List.mem_cons_of_mem _ hmem)
        · rw [List.map_cons, List.nodup_cons]
          refine ⟨?_, ih2⟩
          intro hmem
          obtain ⟨x, hx, hkey⟩ := List.mem_map.1 hmem
          exact ih1 x hx (hkey ▸ List.mem_cons_self _ _)

/-- The dedup loop only uses `seen` through key membership. -/
theorem removeDupAux_congr :
    ∀ (l : List FabricData) (s₁ s₂ : List JStr),
      (∀ k, k ∈ s₁ ↔ k ∈ s₂) → removeDupAux s₁ l = removeDupAux s₂ l := by
  intro l
  induction l with
  | nil => intro s₁ s₂ _; rfl
  | cons e rest ih =>
      intro s₁ s₂ hs
      by_cases h : dedupKey e ∈ s₁
      · rw [removeDupAux, if_pos h, removeDupAux, if_pos ((hs _).1 h)]
        exact ih s₁ s₂ hs
      · rw [removeDupAux, if_neg h, removeDupAux,
          if_neg (fun hm => h ((hs _).2 hm))]
        refine congrArg (e :: ·) (ih _ _ ?_)
        intro k
        simp only [List.mem_cons]
        exact or_congr Iff.rfl (hs k)

/-- Marking a key as seen up front is the same as pre-filtering every row
with that key out of the input. -/
theorem removeDupAux_cons_seen :
    ∀ (l : List FabricData) (seen : List JStr) (k : JStr),
      removeDupAux (k :: seen) l =
        removeDupAux seen (l.filter fun x => decide (dedupKey x ≠ k)) := by
  intro l
  induction l with
  | nil => intro seen k; rfl
  | cons e rest ih =>
      intro seen k
      by_cases hk : dedupKey e = k
      · rw [removeDupAux, if_pos (by simp [hk]), List.filter_cons,
          if_neg (by simp [hk])]
        exact ih seen k
      · rw [List.filter_cons, if_pos (by simp [hk])]
        by_cases hseen : dedupKey e ∈ seen
        · rw [removeDupAux, if_pos (by simp [hseen]), removeDupAux,
            if_pos hseen]
          exact ih seen k
        · rw [removeDupAux, if_neg (by simp [hk, hseen]), removeDupAux,
            if_neg hseen]
          refine congrArg (e :: ·) ?_
          rw [removeDupAux_congr rest (dedupKey e :: k :: seen)
              (k :: dedupKey e :: seen) (by intro x; simp; tauto)]
          exact ih (dedupKey e :: seen) k

/-- The source's seen-set loop computes first-occurrence deduplication as
the specification words it. -/
theorem removeDuplicates_eq_keepFirsts (l : List FabricData) :
    removeDuplicates l = keepFirsts l := by
  suffices h : ∀ (n : Nat) (l : List FabricData), l.length ≤ n →
      removeDuplicates l = keepFirsts l from
    h l.length l le_rfl
  intro n
  induction n with
  | zero =>
      intro l hl
      rw [List.length_eq_zero.1 (Nat.le_zero.1 hl)]
      simp [removeDuplicates, removeDupAux, keepFirsts]
  | succ n ih =>
      intro l hl
      match l with
      | [] => simp [removeDuplicates, removeDupAux, keepFirsts]
      | e :: rest =>
          rw [keepFirsts]
          show removeDupAux [] (e :: rest) = _
          rw [removeDupAux, if_neg (List.not_mem_nil _),
            removeDupAux_cons_seen]
          refine congrArg (e :: ·) ?_
          exact ih _ ((List.length_filter_le _ _).trans
            (Nat.le_of_succ_le_succ hl))

/-- Deduplicating a list whose keys are already pairwise distinct (and
disjoint from `seen`) changes nothing. -/
theorem removeDupAux_of_nodup :
    ∀ (l : List FabricData) (seen : List JStr),
      ((l.map dedupKey).Nodup) → (∀ e ∈ l, dedupKey e ∉ seen) →
      removeDupAux seen l = l := by
  intro l
  induction l with
  | nil => intro seen _ _; rfl
  | cons e rest ih =>
      intro seen hnodup hdisj
      rw [removeDupAux, if_neg (hdisj e (List.mem_cons_self _ _))]
      refine congrArg (e :: ·) (ih _ ?_ ?_)
      · exact (List.nodup_cons.1 (by simpa using hnodup)).2
      · intro x hx
        intro hmem
        rcases List.mem_cons.1 hmem with hxk | hxk
        · exact (List.nodup_cons.1 (by simpa using hnodup)).1
            (hxk ▸ List.mem_map_of_mem dedupKey hx)
        · exact hdisj x (List.mem_cons_of_mem _ hx) hxk

/-- C9: deduplication is idempotent, `dedupe(dedupe(rows)) == dedupe(rows)`
for every row sequence. -/
theorem claim_C9_dedup_idempotent (l : List FabricData) :
    removeDuplicates (removeDuplicates l) = removeDuplicates l :=
  removeDupAux_of_nodup _ [] (removeDupAux_keys l []).2 (by simp)

/-- C2 (amended): `dedupe` retains exactly those rows whose dedup key —
the joined string `fabric ++ '|' ++ alias ++ '|' ++ memberAddress`, built
from the triple's fields only, so fields outside the triple never affect
it — does not occur in any earlier row (`keepFirsts`); it preserves the
relative input order of the retained rows (the output is a sublist of the
input), no two output rows have an equal key, and the output is at most
as long as the input. -/
theorem claim_C2_dedup_key (l : List FabricData) :
    removeDuplicates l = keepFirsts l ∧
    List.Sublist (removeDuplicates l) l ∧
    ((removeDuplicates l).map dedupKey).Nodup ∧
    (removeDuplicates l).length ≤ l.length :=
  ⟨removeDuplicates_eq_keepFirsts l,
   removeDupAux_sublist l [],
   (removeDupAux_keys l []).2,
   (removeDupAux_sublist l []).length_le⟩

/-- A row whose `Fabric` field contains the separator `'|'`. -/
def pipeRow1 : FabricData :=
  { Fabric := "a|b".toList, Alias := "c".toList, memberWWN := "d".toList,
    loggedInText := "yes".toList, Vendor := [] }

/-- A row with the same key string as `pipeRow1` but a different
`(fabric, alias, memberAddress)` triple. -/
def pipeRow2 : FabricData :=
  { Fabric := "a".toList, Alias := "b|c".toList, memberWWN := "d".toList,
    loggedInText := "yes".toList, Vendor := [] }

/-- C2 fails as stated: these two rows have distinct
`(fabric, alias, memberAddress)` triples, so the claim requires both to be
retained, yet `dedupe` — comparing the `'|'`-joined key strings, which
collide — drops the second. -/
theorem claim_C2_counterexample :
    (pipeRow1.Fabric, pipeRow1.Alias, pipeRow1.memberWWN) ≠
      (pipeRow2.Fabric, pipeRow2.Alias, pipeRow2.memberWWN) ∧
    removeDuplicates [pipeRow1, pipeRow2] = [pipeRow1] := by
  decide

/-- Looking up after `Map.set`: the set key answers the new value, other
keys are untouched. -/
theorem lookupA_setA {α : Type} (h : JStr) (v : α) :
    ∀ (m : List (JStr × α)) (h' : JStr),
      lookupA (setA m h v) h' = if h' = h then some v else lookupA m h' := by
  intro m
  induction m with
  | nil =>
      intro h'
      by_cases hh : h' = h
      · simp [setA, lookupA, hh]
      · have hh' : ¬h = h' := fun c => hh c.symm
        simp [setA, lookupA, hh, hh']
  | cons kv rest ih =>
      intro h'
      obtain ⟨k, w⟩ := kv
      by_cases hk : k = h
      · subst hk
        by_cases hh : h' = k
        · simp [setA, lookupA, hh]
        · have hh' : ¬k = h' := fun c => hh c.symm
          simp [setA, lookupA, hh, hh']
      · simp only [setA, if_neg hk, lookupA]
        by_cases hh : k = h'
        · have hne : ¬h' = h := fun c => hk (hh.trans c)
          simp [hh, hne]
        · simp [hh, ih h']

/-- `Map.set` keeps the key sequence, appending the key only when new. -/
theorem keys_setA {α : Type} (h : JStr) (v : α) :
    ∀ m : List (JStr × α),
      (setA m h v).map Prod.fst =
        if h ∈ m.map Prod.fst then m.map Prod.fst
        else m.map Prod.fst ++ [h] := by
  intro m
  induction m with
  | nil =>
      simp only [List.map_nil]
      rw [if_neg (List.not_mem_nil h)]
      rfl
  | cons kv rest ih =>
      obtain ⟨k, w⟩ := kv
      by_cases hk : k = h
      · subst hk
        simp only [setA, eq_self_iff_true, if_true, List.map_cons]
        rw [if_pos (List.mem_cons_self _ _)]
      · have hk' : ¬h = k := fun c => hk c.symm
        simp only [setA, if_neg hk, List.map_cons, ih, List.mem_cons]
        by_cases hm : h ∈ rest.map Prod.fst <;> simp [hm, hk']

/-- `Map.set` preserves distinctness of keys. -/
theorem nodup_keys_setA {α : Type} (m : List (JStr × α)) (h : JStr) (v : α)
    (hnd : (m.map Prod.fst).Nodup) : ((setA m h v).map Prod.fst).Nodup := by
  rw [keys_setA]
  by_cases hm : h ∈ m.map Prod.fst
  · simpa [hm] using hnd
  · rw [if_neg hm, List.nodup_append]
    exact ⟨hnd, List.nodup_singleton _,
      fun a ha hb => hm ((List.mem_singleton.1 hb) ▸ ha)⟩

/-- A key is present exactly when its lookup answers. -/
theorem mem_keys_iff_lookupA {α : Type} :
    ∀ (m : List (JStr × α)) (h : JStr),
      h ∈ m.map Prod.fst ↔ (lookupA m h).isSome := by
  intro m
  induction m with
  | nil =>
      intro h
      simp only [List.map_nil, lookupA]
      exact iff_of_false (List.not_mem_nil h) (by simp)
  | cons kv rest ih =>
      intro h
      obtain ⟨k, w⟩ := kv
      by_cases hk : k = h
      · subst hk
        simp only [List.map_cons]
        exact iff_of_true (List.mem_cons_self _ _)
          (by simp only [lookupA, eq_self_iff_true, if_true, Option.isSome_some])
      · have hk' : ¬h = k := fun c => hk c.symm
        simp only [List.map_cons, List.mem_cons, lookupA, if_neg hk]
        rw [ih h]
        exact or_iff_right hk'

/-- With distinct keys, list membership determines the lookup answer. -/
theorem lookupA_of_mem_nodup {α : Type} :
    ∀ (m : List (JStr × α)) (h : JStr) (v : α),
      (m.map Prod.fst).Nodup → (h, v) ∈ m → lookupA m h = some v := by
  intro m
  induction m with
  | nil =>
      intro h v _ hm
      simp at hm
  | cons kv rest ih =>
      intro h v hnd hm
      obtain ⟨k, w⟩ := kv
      simp only [List.map_cons, List.nodup_cons] at hnd
      rcases List.mem_cons.1 hm with heq | hm'
      · have h1 : h = k := congrArg Prod.fst heq
        have h2 : v = w := congrArg Prod.snd heq
        subst h1
        subst h2
        simp [lookupA]
      · have hk : k ≠ h := by
          rintro rfl
          exact hnd.1 (List.mem_map_of_mem Prod.fst hm')
        simp only [lookupA, if_neg hk]
        exact ih h v hnd.2 hm'

/-- One step of the reference WWN list for host `h`: a row of another host
changes nothing; a row of host `h` appends `(wwn, isLoggedIn, fabric)`
exactly when no entry with that `(wwn, fabric)` pair is present yet. -/
def wwnStep (h : JStr) (acc : List WWNInfo) (e : FabricData) : List WWNInfo :=
  if hostOf e = h then
    (if ∃ w ∈ acc, w.wwn = e.memberWWN ∧ w.fabric = e.Fabric then acc
     else acc ++ [⟨e.memberWWN, isYes e.loggedInText, e.Fabric⟩])
  else acc

/-- The reference WWN list of host `h` over a row list. -/
def wwnsRef (data : List FabricData) (h : JStr) : List WWNInfo :=
  data.foldl (wwnStep h) []

/-- The reference aggregate for host `h`: the four counters count matching
rows, and the WWN list is the first-occurrence `(wwn, fabric)` fold. -/
def aggOf (data : List FabricData) (h : JStr) : HostData :=
  { hostName := h
    fabA := ⟨cntFab data fabAStr h true, cntFab data fabAStr h false⟩
    fabB := ⟨cntFab data fabBStr h true, cntFab data fabBStr h false⟩
    wwns := wwnsRef data h }

/-- Appending one row adds its contribution to a matching-row count. -/
theorem cntFab_append_single (p : List FabricData) (e : FabricData)
    (fab h : JStr) (b : Bool) :
    cntFab (p ++ [e]) fab h b =
      cntFab p fab h b +
        (if e.Fabric = fab ∧ hostOf e = h ∧ isYes e.loggedInText = b
         then 1 else 0) := by
  unfold cntFab
  rw [List.filter_append, List.length_append]
  congr 1
  by_cases hm : e.Fabric = fab ∧ hostOf e = h ∧ isYes e.loggedInText = b <;>
    simp [List.filter, hm]

/-- Appending one row applies one reference WWN step. -/
theorem wwnsRef_append_single (p : List FabricData) (e : FabricData)
    (h : JStr) :
    wwnsRef (p ++ [e]) h = wwnStep h (wwnsRef p h) e := by
  unfold wwnsRef
  rw [List.foldl_append]
  rfl

/-- A host with no matching rows has zero count. -/
theorem cntFab_of_not_mem (p : List FabricData) (fab h : JStr) (b : Bool)
    (hh : h ∉ p.map hostOf) : cntFab p fab h b = 0 := by
  unfold cntFab
  rw [List.filter_eq_nil_iff.2 ?_]
  · rfl
  · intro e he
    simp only [decide_eq_true_eq, not_and]
    intro _ habs
    exact absurd (habs ▸ List.mem_map_of_mem hostOf he) hh

/-- A host with no matching rows has an empty reference WWN list. -/
theorem wwnsRef_of_not_mem :
    ∀ (p : List FabricData) (h : JStr), h ∉ p.map hostOf → wwnsRef p h = [] := by
  intro p
  induction p with
  | nil => intro h _; rfl
  | cons e rest ih =>
      intro h hh
      simp only [List.map_cons, List.mem_cons, not_or] at hh
      have he : hostOf e ≠ h := fun c => hh.1 c.symm
      unfold wwnsRef
      rw [List.foldl_cons]
      show List.foldl (wwnStep h) (wwnStep h [] e) rest = []
      rw [show wwnStep h [] e = [] from by simp [wwnStep, he]]
      exact ih h hh.2

/-- An unseen host's reference aggregate is the fresh aggregate. -/
theorem aggOf_of_not_mem (p : List FabricData) (h : JStr)
    (hh : h ∉ p.map hostOf) : aggOf p h = emptyAgg h := by
  unfold aggOf emptyAgg
  rw [cntFab_of_not_mem p _ h _ hh, cntFab_of_not_mem p _ h _ hh,
    cntFab_of_not_mem p _ h _ hh, cntFab_of_not_mem p _ h _ hh,
    wwnsRef_of_not_mem p h hh]

/-- Appending a row of a different host leaves an aggregate unchanged. -/
theorem aggOf_append_ne (p : List FabricData) (e : FabricData) (h : JStr)
    (hne : hostOf e ≠ h) : aggOf (p ++ [e]) h = aggOf p h := by
  unfold aggOf
  rw [wwnsRef_append_single, show wwnStep h (wwnsRef p h) e = wwnsRef p h
      from by simp [wwnStep, hne]]
  rw [cntFab_append_single, cntFab_append_single, cntFab_append_single,
    cntFab_append_single]
  simp [hne]

/-- Two host aggregates with equal fields are equal. -/
theorem HostData.ext' (x y : HostData) (h1 : x.hostName = y.hostName)
    (h2 : x.fabA = y.fabA) (h3 : x.fabB = y.fabB) (h4 : x.wwns = y.wwns) :
    x = y := by
  cases x
  cases y
  cases h1
  cases h2
  cases h3
  cases h4
  rfl

/-- `addWWN` computes the reference WWN update and nothing else. -/
theorem addWWN_wwns (agg : HostData) (e : FabricData) :
    (addWWN agg e).wwns =
      (if ∃ w ∈ agg.wwns, w.wwn = e.memberWWN ∧ w.fabric = e.Fabric
       then agg.wwns
       else agg.wwns ++ [⟨e.memberWWN, isYes e.loggedInText, e.Fabric⟩]) := by
  unfold addWWN
  split <;> rfl

/-- `addWWN` leaves name and counters alone. -/
theorem addWWN_keeps (agg : HostData) (e : FabricData) :
    (addWWN agg e).hostName = agg.hostName ∧
    (addWWN agg e).fabA = agg.fabA ∧ (addWWN agg e).fabB = agg.fabB := by
  unfold addWWN
  split <;> exact ⟨rfl, rfl, rfl⟩

/-- `bumpCounters` leaves name and WWN list alone. -/
theorem bumpCounters_keeps (agg : HostData) (e : FabricData) :
    (bumpCounters agg e).hostName = agg.hostName ∧
    (bumpCounters agg e).wwns = agg.wwns := by
  unfold bumpCounters
  split_ifs <;> exact ⟨rfl, rfl⟩

/-- The FAB-A counters after `bumpCounters`, in closed form. -/
theorem bumpCounters_fabA (agg : HostData) (e : FabricData) :
    (bumpCounters agg e).fabA =
      ⟨agg.fabA.loggedIn +
        (if e.Fabric = fabAStr ∧ isYes e.loggedInText = true then 1 else 0),
       agg.fabA.notLoggedIn +
        (if e.Fabric = fabAStr ∧ isYes e.loggedInText = false then 1 else 0)⟩ := by
  unfold bumpCounters
  by_cases hA : e.Fabric = fabAStr
  · cases hY : isYes e.loggedInText <;> simp [hA, hY]
  · simp only [if_neg hA, hA, false_and, if_false, Nat.add_zero]
    split_ifs <;> rfl

/-- The FAB-B counters after `bumpCounters`, in closed form; a FAB-A row
cannot reach the FAB-B branch since the two fabric strings differ. -/
theorem bumpCounters_fabB (agg : HostData) (e : FabricData) :
    (bumpCounters agg e).fabB =
      ⟨agg.fabB.loggedIn +
        (if e.Fabric = fabBStr ∧ isYes e.loggedInText = true then 1 else 0),
       agg.fabB.notLoggedIn +
        (if e.Fabric = fabBStr ∧ isYes e.loggedInText = false then 1 else 0)⟩ := by
  have hAB : fabAStr ≠ fabBStr := by decide
  unfold bumpCounters
  by_cases hA : e.Fabric = fabAStr
  · have hB : ¬e.Fabric = fabBStr := fun c => hAB (hA ▸ c)
    simp only [if_pos hA, hB, false_and, if_false, Nat.add_zero]
    split <;> rfl
  · by_cases hB : e.Fabric = fabBStr
    · cases hY : isYes e.loggedInText <;> simp [hA, hB, hY, Ne.symm hAB]
    · simp [hA, hB]

/-- One loop body applied to the correct aggregate of the processed prefix
yields the correct aggregate of the prefix extended by the row. -/
theorem stepHost_agg (p : List FabricData) (e : FabricData) :
    bumpCounters (addWWN (aggOf p (hostOf e)) e) e =
      aggOf (p ++ [e]) (hostOf e) := by
  apply HostData.ext'
  · rw [(bumpCounters_keeps _ _).1, (addWWN_keeps _ _).1]
    rfl
  · rw [bumpCounters_fabA, (addWWN_keeps _ _).2.1]
    show _ = (⟨cntFab (p ++ [e]) fabAStr (hostOf e) true,
      cntFab (p ++ [e]) fabAStr (hostOf e) false⟩ : FabCounts)
    rw [cntFab_append_single, cntFab_append_single]
    show (⟨cntFab p fabAStr (hostOf e) true + _,
      cntFab p fabAStr (hostOf e) false + _⟩ : FabCounts) = _
    congr 2 <;> simp
  · rw [bumpCounters_fabB, (addWWN_keeps _ _).2.2]
    show _ = (⟨cntFab (p ++ [e]) fabBStr (hostOf e) true,
      cntFab (p ++ [e]) fabBStr (hostOf e) false⟩ : FabCounts)
    rw [cntFab_append_single, cntFab_append_single]
    show (⟨cntFab p fabBStr (hostOf e) true + _,
      cntFab p fabBStr (hostOf e) false + _⟩ : FabCounts) = _
    congr 2 <;> simp
  · rw [(bumpCounters_keeps _ _).2, addWWN_wwns]
    show _ = wwnsRef (p ++ [e]) (hostOf e)
    rw [wwnsRef_append_single]
    unfold wwnStep
    rw [if_pos rfl]
    rfl

/-- One loop body preserves the loop invariant: distinct keys, and every
lookup answers the reference aggregate of the processed prefix. -/
theorem stepHost_inv (p : List FabricData) (m : List (JStr × HostData))
    (e : FabricData) (hnd : (m.map Prod.fst).Nodup)
    (hlk : ∀ h, lookupA m h =
      if h ∈ p.map hostOf then some (aggOf p h) else none) :
    ((stepHost m e).map Prod.fst).Nodup ∧
    ∀ h, lookupA (stepHost m e) h =
      if h ∈ (p ++ [e]).map hostOf then some (aggOf (p ++ [e]) h) else none := by
  refine ⟨nodup_keys_setA m _ _ hnd, fun h => ?_⟩
  show lookupA (setA m (extractHostName e.Alias) _) h = _
  rw [lookupA_setA]
  have hdef : extractHostName e.Alias = hostOf e := rfl
  rw [hdef]
  by_cases hh : h = hostOf e
  · subst hh
    rw [if_pos rfl, if_pos (by simp [hostOf])]
    have hcur : (lookupA m (hostOf e)).getD (emptyAgg (hostOf e)) =
        aggOf p (hostOf e) := by
      rw [hlk (hostOf e)]
      by_cases hmem : hostOf e ∈ p.map hostOf
      · rw [if_pos hmem]
        rfl
      · rw [if_neg hmem]
        exact (aggOf_of_not_mem p (hostOf e) hmem).symm
    show some (bumpCounters (addWWN ((lookupA m (hostOf e)).getD
      (emptyAgg (hostOf e))) e) e) = _
    rw [hcur, stepHost_agg]
  · rw [if_neg hh, hlk h]
    have hmem : h ∈ (p ++ [e]).map hostOf ↔ h ∈ p.map hostOf := by
      simp only [List.map_append, List.mem_append]
      constructor
      · rintro (hp | he)
        · exact hp
        · exact absurd (List.mem_singleton.1 he) hh
      · exact Or.inl
    by_cases hp : h ∈ p.map hostOf
    · rw [if_pos hp, if_pos (hmem.2 hp),
        aggOf_append_ne p e h (fun c => hh c.symm)]
    · rw [if_neg hp, if_neg (fun c => hp (hmem.1 c))]

/-- The loop invariant carried over the whole fold. -/
theorem foldl_stepHost_inv :
    ∀ (rest p : List FabricData) (m : List (JStr × HostData)),
      (m.map Prod.fst).Nodup →
      (∀ h, lookupA m h =
        if h ∈ p.map hostOf then some (aggOf p h) else none) →
      (((rest.foldl stepHost m).map Prod.fst).Nodup ∧
       ∀ h, lookupA (rest.foldl stepHost m) h =
         if h ∈ (p ++ rest).map hostOf then some (aggOf (p ++ rest) h)
         else none) := by
  intro rest
  induction rest with
  | nil =>
      intro p m hnd hlk
      rw [List.foldl_nil, List.append_nil]
      exact ⟨hnd, hlk⟩
  | cons e rest ih =>
      intro p m hnd hlk
      obtain ⟨hnd', hlk'⟩ := stepHost_inv p m e hnd hlk
      have h2 := ih (p ++ [e]) (stepHost m e) hnd' hlk'
      rw [List.append_assoc] at h2
      exact h2

/-- `groupByHost` has pairwise-distinct host keys, and its lookups answer
exactly the reference aggregates of the hosts appearing in the data. -/
theorem groupByHost_spec (data : List FabricData) :
    (((groupByHost data).map Prod.fst).Nodup) ∧
    ∀ h, lookupA (groupByHost data) h =
      if h ∈ data.map hostOf then some (aggOf data h) else none := by
  have h2 := foldl_stepHost_inv data [] []
    (by simp) (by intro h; simp [lookupA])
  rw [List.nil_append] at h2
  exact h2

/-- Every `groupByHost` entry is keyed by a host of the data and carries
that host's reference aggregate. -/
theorem mem_groupByHost (data : List FabricData) (k : JStr)
    (agg : HostData) (hm : (k, agg) ∈ groupByHost data) :
    k ∈ data.map hostOf ∧ agg = aggOf data k := by
  obtain ⟨hnd, hlk⟩ := groupByHost_spec data
  have hlook := lookupA_of_mem_nodup _ k agg hnd hm
  rw [hlk k] at hlook
  by_cases hk : k ∈ data.map hostOf
  · rw [if_pos hk] at hlook
    exact ⟨hk, (Option.some.injEq .. ▸ hlook).symm⟩
  · rw [if_neg hk] at hlook
    cases hlook

/-- A successful lookup comes from an entry of the list. -/
theorem lookupA_mem {α : Type} :
    ∀ (m : List (JStr × α)) (h : JStr) (v : α),
      lookupA m h = some v → (h, v) ∈ m := by
  intro m
  induction m with
  | nil =>
      intro h v hl
      cases hl
  | cons kv rest ih =>
      intro h v hl
      obtain ⟨k, w⟩ := kv
      by_cases hk : k = h
      · subst hk
        rw [lookupA, if_pos rfl] at hl
        obtain rfl : w = v := Option.some.injEq .. ▸ hl
        exact List.mem_cons_self _ _
      · rw [lookupA, if_neg hk] at hl
        exact List.mem_cons_of_mem _ (ih h v hl)

/-- The keys of `groupByHost` are exactly the hosts derived from the data. -/
theorem mem_keys_groupByHost (data : List FabricData) (h : JStr) :
    h ∈ (groupByHost data).map Prod.fst ↔ h ∈ data.map hostOf := by
  rw [mem_keys_iff_lookupA, (groupByHost_spec data).2 h]
  by_cases hk : h ∈ data.map hostOf <;> simp [hk]

/-- Sorting permutes the results, so membership in `validate`'s output is
membership in the unsorted result list, for any comparison. -/
theorem mem_validateWith (le : JStr → JStr → Bool) (v : FabricValidator)
    (r : ValidationResult) :
    r ∈ validateWith le v ↔ r ∈ resultsOf v :=
  (List.mergeSort_perm (resultsOf v) _).mem_iff

/-- C3: every host result produced by `validate()` carries as
`fabA_LoggedInYes` the number of deduplicated rows with fabric `'FAB-A'`
whose alias derives the result's host and whose Logged In text
case-insensitively equals `yes`; `fabA_LoggedInNo` counts the remaining
`'FAB-A'` rows of that host, and the FAB-B counters count `'FAB-B'` rows
analogously.  A row with any other fabric value matches none of the four
filters and so increments no counter. -/
theorem claim_C3_host_counters (input : List FabricData)
    (le : JStr → JStr → Bool) (r : ValidationResult)
    (hr : r ∈ validateWith le (FabricValidator.make input)) :
    r.fabA_LoggedInYes =
      cntFab (FabricValidator.make input).data fabAStr r.host true ∧
    r.fabA_LoggedInNo =
      cntFab (FabricValidator.make input).data fabAStr r.host false ∧
    r.fabB_LoggedInYes =
      cntFab (FabricValidator.make input).data fabBStr r.host true ∧
    r.fabB_LoggedInNo =
      cntFab (FabricValidator.make input).data fabBStr r.host false := by
  rw [mem_validateWith] at hr
  obtain ⟨kv, hkv, rfl⟩ := List.mem_map.1 hr
  obtain ⟨k, agg⟩ := kv
  obtain ⟨hk, hagg⟩ := mem_groupByHost _ k agg hkv
  subst hagg
  exact ⟨rfl, rfl, rfl, rfl⟩

/-- The row of the closed C3 instance. -/
def rowC3 : FabricData :=
  { Fabric := "FAB-A".toList, Alias := "srv_1".toList,
    memberWWN := "w1".toList, loggedInText := "Yes".toList, Vendor := [] }

/-- The single result `validate()` produces from `rowC3`. -/
def resC3 : ValidationResult :=
  { host := "srv".toList, wwns := [⟨"w1".toList, true, "FAB-A".toList⟩],
    fabA_LoggedInYes := 1, fabA_LoggedInNo := 0, validationA := Verdict.OK,
    fabB_LoggedInYes := 0, fabB_LoggedInNo := 0, validationB := Verdict.Error,
    finalValidation := FinalValidation.fabBBad }

/-- Closed instance of C3 on a one-row input. -/
theorem claim_C3_witness :
    resC3.fabA_LoggedInYes =
      cntFab (FabricValidator.make [rowC3]).data fabAStr resC3.host true ∧
    resC3.fabA_LoggedInNo =
      cntFab (FabricValidator.make [rowC3]).data fabAStr resC3.host false ∧
    resC3.fabB_LoggedInYes =
      cntFab (FabricValidator.make [rowC3]).data fabBStr resC3.host true ∧
    resC3.fabB_LoggedInNo =
      cntFab (FabricValidator.make [rowC3]).data fabBStr resC3.host false :=
  claim_C3_host_counters [rowC3] (fun _ _ => true) resC3 (by
    have h : resultsOf (FabricValidator.make [rowC3]) = [resC3] := by decide
    unfold validateWith
    rw [h, List.mergeSort_singleton]
    exact List.mem_singleton.mpr rfl)

/-- C10: every deduplicated row — also one whose fabric is neither
`'FAB-A'` nor `'FAB-B'` — creates or updates the aggregate of its derived
host, so the hosts of `validate()`'s output are exactly the hosts derived
from the deduplicated rows; each result's `wwns` list is the fold that
appends a `(wwn, isLoggedIn, fabric)` entry whenever the `(wwn, fabric)`
pair is new for the host; and a host observed only through
unrecognized-fabric rows still appears, with all four counters zero and
`finalValidation` equal to `'Both FABs Are BAD'`. -/
theorem claim_C10_unrecognized_fabric (input : List FabricData)
    (le : JStr → JStr → Bool) :
    (∀ h : JStr,
      (∃ r ∈ validateWith le (FabricValidator.make input), r.host = h) ↔
        h ∈ (FabricValidator.make input).data.map hostOf) ∧
    (∀ r ∈ validateWith le (FabricValidator.make input),
      r.wwns = wwnsRef (FabricValidator.make input).data r.host) ∧
    (∀ r ∈ validateWith le (FabricValidator.make input),
      (∀ e ∈ (FabricValidator.make input).data,
        hostOf e = r.host → e.Fabric ≠ fabAStr ∧ e.Fabric ≠ fabBStr) →
      r.fabA_LoggedInYes = 0 ∧ r.fabA_LoggedInNo = 0 ∧
      r.fabB_LoggedInYes = 0 ∧ r.fabB_LoggedInNo = 0 ∧
      r.finalValidation = FinalValidation.bothBad) := by
  refine ⟨fun h => ?_, fun r hr => ?_, fun r hr hfab => ?_⟩
  · constructor
    · rintro ⟨r, hr, rfl⟩
      rw [mem_validateWith] at hr
      obtain ⟨kv, hkv, rfl⟩ := List.mem_map.1 hr
      obtain ⟨k, agg⟩ := kv
      exact (mem_groupByHost _ k agg hkv).1
    · intro hmem
      rw [← mem_keys_groupByHost] at hmem
      obtain ⟨agg, hagg⟩ := Option.isSome_iff_exists.1
        ((mem_keys_iff_lookupA _ h).1 hmem)
      refine ⟨mkResult (h, agg), ?_, rfl⟩
      rw [mem_validateWith]
      exact List.mem_map_of_mem mkResult (lookupA_mem _ h agg hagg)
  · rw [mem_validateWith] at hr
    obtain ⟨kv, hkv, rfl⟩ := List.mem_map.1 hr
    obtain ⟨k, agg⟩ := kv
    obtain ⟨hk, hagg⟩ := mem_groupByHost _ k agg hkv
    subst hagg
    rfl
  · rw [mem_validateWith] at hr
    obtain ⟨kv, hkv, rfl⟩ := List.mem_map.1 hr
    obtain ⟨k, agg⟩ := kv
    obtain ⟨hk, hagg⟩ := mem_groupByHost _ k agg hkv
    subst hagg
    have hz : ∀ f b, f = fabAStr ∨ f = fabBStr →
        cntFab (FabricValidator.make input).data f k b = 0 := by
      intro f b hf
      unfold cntFab
      rw [List.filter_eq_nil_iff.2 ?_]
      · rfl
      · intro e he
        simp only [decide_eq_true_eq, not_and]
        intro h1 h2
        intro _
        have hne := hfab e he h2
        rcases hf with rfl | rfl
        · exact hne.1 h1
        · exact hne.2 h1
    refine ⟨hz _ _ (Or.inl rfl), hz _ _ (Or.inl rfl),
      hz _ _ (Or.inr rfl), hz _ _ (Or.inr rfl), ?_⟩
    show getFinalValidation
      (validateFabric (cntFab (FabricValidator.make input).data fabAStr k true)
        (cntFab (FabricValidator.make input).data fabAStr k false))
      (validateFabric (cntFab (FabricValidator.make input).data fabBStr k true)
        (cntFab (FabricValidator.make input).data fabBStr k false)) =
      FinalValidation.bothBad
    rw [hz _ _ (Or.inl rfl), hz _ _ (Or.inl rfl),
      hz _ _ (Or.inr rfl), hz _ _ (Or.inr rfl)]
    rfl

/-- A row whose fabric value is neither `'FAB-A'` nor `'FAB-B'`. -/
def rowC10 : FabricData :=
  { Fabric := "FAB-X".toList, Alias := "hx_1".toList,
    memberWWN := "wx".toList, loggedInText := "no".toList, Vendor := [] }

/-- The result `validate()` produces from `rowC10` alone. -/
def resC10 : ValidationResult :=
  { host := "hx".toList, wwns := [⟨"wx".toList, false, "FAB-X".toList⟩],
    fabA_LoggedInYes := 0, fabA_LoggedInNo := 0, validationA := Verdict.Error,
    fabB_LoggedInYes := 0, fabB_LoggedInNo := 0, validationB := Verdict.Error,
    finalValidation := FinalValidation.bothBad }

/-- Closed instance of C10: a host observed only through an
unrecognized-fabric row still appears in the output, keeps its WWN entry,
and is classified `'Both FABs Are BAD'` with all counters zero. -/
theorem claim_C10_witness :
    (∃ r ∈ validateWith (fun _ _ => true) (FabricValidator.make [rowC10]),
      r.host = "hx".toList) ∧
    resC10.wwns = wwnsRef (FabricValidator.make [rowC10]).data resC10.host ∧
    (resC10.fabA_LoggedInYes = 0 ∧ resC10.fabA_LoggedInNo = 0 ∧
     resC10.fabB_LoggedInYes = 0 ∧ resC10.fabB_LoggedInNo = 0 ∧
     resC10.finalValidation = FinalValidation.bothBad) := by
  have T := claim_C10_unrecognized_fabric [rowC10] (fun _ _ => true)
  have hmem : resC10 ∈ validateWith (fun _ _ => true)
      (FabricValidator.make [rowC10]) := by
    have h : resultsOf (FabricValidator.make [rowC10]) = [resC10] := by decide
    unfold validateWith
    rw [h, List.mergeSort_singleton]
    exact List.mem_singleton.mpr rfl
  exact ⟨(T.1 _).mpr (by decide), T.2.1 resC10 hmem,
    T.2.2 resC10 hmem (by decide)⟩

/-- Each result lands in exactly one of the four final-validation filter
buckets, so the four bucket sizes sum to the result count. -/
theorem filter_final_partition :
    ∀ results : List ValidationResult,
      (results.filter (fun r =>
        decide (r.finalValidation = FinalValidation.good))).length +
      (results.filter (fun r =>
        decide (r.finalValidation = FinalValidation.fabABad))).length +
      (results.filter (fun r =>
        decide (r.finalValidation = FinalValidation.fabBBad))).length +
      (results.filter (fun r =>
        decide (r.finalValidation = FinalValidation.bothBad))).length =
      results.length := by
  intro results
  induction results with
  | nil => rfl
  | cons r rest ih =>
      cases hr : r.finalValidation <;>
        (simp only [List.filter_cons, hr]; simp; omega)

/-- C7 (amended): for a validator and any results list, the summary
satisfies `total == length(results)`,
`good + fabABad + fabBBad + bothBad == total`, and
`uniqueEntries + duplicatesRemoved == originalEntries`; `percentageGood`
is `Math.round` applied to the binary64 evaluation of
`(good / total) * 100` when `total > 0` — which agrees with the exact
`round(100 * good / total)` except when the two floating-point roundings
land the product on the other side of a half-integer — and `0` when
`total == 0`. -/
theorem claim_C7_summary (input : List FabricData)
    (results : List ValidationResult) :
    (getSummary (FabricValidator.make input) results).total =
      results.length ∧
    (getSummary (FabricValidator.make input) results).good +
      (getSummary (FabricValidator.make input) results).fabABad +
      (getSummary (FabricValidator.make input) results).fabBBad +
      (getSummary (FabricValidator.make input) results).bothBad =
      (getSummary (FabricValidator.make input) results).total ∧
    (getSummary (FabricValidator.make input) results).uniqueEntries +
      (getSummary (FabricValidator.make input) results).duplicatesRemoved =
      (getSummary (FabricValidator.make input) results).originalEntries ∧
    (0 < results.length →
      (getSummary (FabricValidator.make input) results).percentageGood =
        jsMathRound (fl53 (fl53
          (((getSummary (FabricValidator.make input) results).good : ℚ) /
            ((getSummary (FabricValidator.make input) results).total : ℚ)) *
          100))) ∧
    (results.length = 0 →
      (getSummary (FabricValidator.make input) results).percentageGood = 0) := by
  refine ⟨rfl, filter_final_partition results, ?_, ?_, ?_⟩
  · show (removeDuplicates input).length +
      (input.length - (removeDuplicates input).length) = input.length
    exact Nat.add_sub_cancel' (removeDupAux_sublist input []).length_le
  · intro h
    show (if 0 < results.length then _ else 0) = _
    rw [if_pos h]
    rfl
  · intro h
    show (if 0 < results.length then _ else 0) = 0
    rw [if_neg (by omega)]

/-- A result counted as Good by `getSummary`. -/
def goodResC7 : ValidationResult :=
  { host := [], wwns := [], fabA_LoggedInYes := 1, fabA_LoggedInNo := 0,
    validationA := Verdict.OK, fabB_LoggedInYes := 1, fabB_LoggedInNo := 0,
    validationB := Verdict.OK, finalValidation := FinalValidation.good }

/-- A result not counted as Good by `getSummary`. -/
def badResC7 : ValidationResult :=
  { host := [], wwns := [], fabA_LoggedInYes := 0, fabA_LoggedInNo := 0,
    validationA := Verdict.Error, fabB_LoggedInYes := 0, fabB_LoggedInNo := 0,
    validationB := Verdict.Error, finalValidation := FinalValidation.bothBad }

/-- Forty results of which twenty-three are Good. -/
def resultsC7 : List ValidationResult :=
  List.replicate 23 goodResC7 ++ List.replicate 17 badResC7

set_option maxRecDepth 8000 in
/-- C7 fails as stated: with `good = 23` and `total = 40`,
`Math.round((good / total) * 100)` evaluates `23 / 40` and the product in
binary64, giving `57.49999999999999289…`, so the code returns `57`, while
the claimed exact `round(100 * good / total) = round(57.5)` is `58`. -/
theorem claim_C7_counterexample :
    (getSummary (FabricValidator.make []) resultsC7).good = 23 ∧
    (getSummary (FabricValidator.make []) resultsC7).total = 40 ∧
    (getSummary (FabricValidator.make []) resultsC7).percentageGood = 57 ∧
    round ((100 * ((getSummary (FabricValidator.make []) resultsC7).good : ℚ)) /
      ((getSummary (FabricValidator.make []) resultsC7).total : ℚ)) = 58 :=
  of_decide_eq_true (by with_unfolding_all rfl)

/-- Closed instance of C7 on one result: the percentage implications hold
with their hypotheses discharged at `total = 1` and at `total = 0`. -/
theorem claim_C7_witness :
    ((getSummary (FabricValidator.make []) [goodResC7]).percentageGood =
      jsMathRound (fl53 (fl53
        (((getSummary (FabricValidator.make []) [goodResC7]).good : ℚ) /
          ((getSummary (FabricValidator.make []) [goodResC7]).total : ℚ)) *
        100))) ∧
    (getSummary (FabricValidator.make []) ([] : List ValidationResult)).percentageGood = 0 :=
  ⟨(claim_C7_summary [] [goodResC7]).2.2.2.1 (by decide),
   (claim_C7_summary [] []).2.2.2.2 rfl⟩

/-- The dynamic grouping loop succeeds exactly when every row it processes
has both its `Alias` and its `Logged In` field present. -/
theorem dynFoldl_isOk :
    ∀ (l : List RawEntry) (m : List (JStr × DynHostData)),
      (l.foldlM dynStepHost m).isOk = true ↔
        ∀ e ∈ l, e.Alias.isSome ∧ e.loggedInText.isSome := by
  intro l
  induction l with
  | nil =>
      intro m
      simp [List.foldlM, Except.isOk, Except.toBool, pure, Except.pure]
  | cons e rest ih =>
      intro m
      rw [List.foldlM_cons]
      rcases hA : e.Alias with _ | a <;> rcases hL : e.loggedInText with _ | li <;>
        simp only [dynStepHost, hA, hL]
      · refine iff_of_false (fun hok => Bool.noConfusion
          (show false = true from hok)) (fun hall => ?_)
        have hcontra := (hall e (List.mem_cons_self _ _)).1
        rw [hA] at hcontra
        exact Bool.noConfusion (show false = true from hcontra)
      · refine iff_of_false (fun hok => Bool.noConfusion
          (show false = true from hok)) (fun hall => ?_)
        have hcontra := (hall e (List.mem_cons_self _ _)).1
        rw [hA] at hcontra
        exact Bool.noConfusion (show false = true from hcontra)
      · refine iff_of_false (fun hok => Bool.noConfusion
          (show false = true from hok)) (fun hall => ?_)
        have hcontra := (hall e (List.mem_cons_self _ _)).2
        rw [hL] at hcontra
        exact Bool.noConfusion (show false = true from hcontra)
      · rw [show ((Except.ok (setA m (extractHostName a) _) :
            Except Unit (List (JStr × DynHostData))) >>=
            fun m' => List.foldlM dynStepHost m' rest) =
            List.foldlM dynStepHost (setA m (extractHostName a) _) rest
            from rfl]
        rw [ih]
        constructor
        · intro h x hx
          rcases List.mem_cons.1 hx with rfl | hx2
          · exact ⟨by simp [hA], by simp [hL]⟩
          · exact h x hx2
        · intro h x hx
          exact h x (List.mem_cons_of_mem _ hx)

/-- C8 (amended): the constructor's deduplication and `getSummary` are
total, and `validate()` on a validator built from dynamic rows succeeds
exactly when every deduplicated row has both its `Alias` and its
`Logged In` field present — it throws a `TypeError` otherwise; a field
that is missing participates in the deduplication key as the string
`"undefined"` (JavaScript template-literal rendering of `undefined`),
not as the empty string. -/
theorem claim_C8_malformed_rows :
    (∀ rows : List RawEntry,
      (dynValidate rows).isOk = true ↔
        ∀ e ∈ dynRemoveDuplicates rows,
          e.Alias.isSome ∧ e.loggedInText.isSome) ∧
    jsField none = "undefined".toList := by
  refine ⟨fun rows => ?_, rfl⟩
  have hmap : (dynValidate rows).isOk =
      (dynGroupByHost (dynRemoveDuplicates rows)).isOk := by
    unfold dynValidate
    cases dynGroupByHost (dynRemoveDuplicates rows) <;> rfl
  rw [hmap]
  exact dynFoldl_isOk (dynRemoveDuplicates rows) []

/-- A dynamic row whose `Logged In` field is absent. -/
def rowMissingLogin : RawEntry :=
  { Fabric := some ("FAB-A".toList), Alias := some ("h_1".toList),
    memberWWN := some ("w".toList), loggedInText := none }

/-- A dynamic row whose `Fabric` field is absent. -/
def rowMissingFabric : RawEntry :=
  { Fabric := none, Alias := some ("a".toList),
    memberWWN := some ("w".toList), loggedInText := some ("yes".toList) }

/-- A dynamic row whose `Fabric` field is the empty string. -/
def rowEmptyFabric : RawEntry :=
  { Fabric := some [], Alias := some ("a".toList),
    memberWWN := some ("w".toList), loggedInText := some ("yes".toList) }

/-- C8 fails as stated: `validate()` does raise on a row lacking the
`Logged In` field (`entry['Logged In'].toLowerCase()` throws), and a row
lacking `Fabric` does not get the same dedup key as the row with an empty
`Fabric` — the absent field renders as `"undefined"`, not `""`, so the
two rows the claim calls duplicates are both retained. -/
theorem claim_C8_counterexample :
    (dynValidate [rowMissingLogin]).isOk = false ∧
    dynKey rowMissingFabric ≠ dynKey rowEmptyFabric ∧
    dynRemoveDuplicates [rowMissingFabric, rowEmptyFabric] =
      [rowMissingFabric, rowEmptyFabric] := by
  decide

/-- A dynamic row with every field present. -/
def rowDynOk : RawEntry :=
  { Fabric := some ("FAB-B".toList), Alias := some ("h_2".toList),
    memberWWN := some ("w2".toList), loggedInText := some ("Yes".toList) }

/-- Closed instance of amended C8: with the fields present, `validate()`
succeeds. -/
theorem claim_C8_witness : (dynValidate [rowDynOk]).isOk = true :=
  (claim_C8_malformed_rows.1 [rowDynOk]).mpr (by decide)
